import Mathlib

/-!
Verification development for the brat conversion tools
(`tools/anntoconll.py` and `tools/conllpos_to_standoff.py`).

The Python source is shallowly embedded: lines and fields are modelled as
`List Char` / `String`, Python exceptions as an explicit error type on
`Except`, and the mutable loops as structural recursions carrying the same
state.  Machine-level details that the source never exercises (unicode
digit classes in `int()`, etc.) are noted at the definition that models
them.
-/

set_option maxRecDepth 20000

/-- Python exception kinds raised by the embedded code.  `FormatError` is the
exception class declared in `anntoconll.py`; the others are builtin
Python exceptions. -/
inductive PyError where
  | valueError
  | keyError
  | assertionError
  | indexError
  | formatError
  deriving DecidableEq, Repr

/-- Characters matched by Python's `\s` class (ASCII range), as used by
`EMPTY_LINE_RE = re.compile(r'^\s*$')` and `str.split()`/`str.strip()`. -/
def isPySpace (c : Char) : Bool :=
  c = ' ' || c = '\t' || c = '\n' || c = '\r' || c = '\x0c' || c = '\x0b'

/-- Python `s.split(sep)` for a one-character separator: split at every
occurrence, keeping empty fields; the empty string yields `[[]]`. -/
def pySplit (sep : Char) : List Char → List (List Char)
  | [] => [[]]
  | c :: cs =>
    if c = sep then [] :: pySplit sep cs
    else
      match pySplit sep cs with
      | f :: rest => (c :: f) :: rest
      | [] => [[c]]

/-- Python `sep.join(fields)` for a one-character separator. -/
def pyJoin (sep : Char) : List (List Char) → List Char
  | [] => []
  | [f] => f
  | f :: fs => f ++ sep :: pyJoin sep fs

theorem pySplit_ne_nil (sep : Char) (l : List Char) : pySplit sep l ≠ [] := by
  cases l with
  | nil => simp [pySplit]
  | cons c cs =>
    simp only [pySplit]
    split
    · simp
    · split <;> simp_all

theorem pyJoin_pySplit (sep : Char) (l : List Char) :
    pyJoin sep (pySplit sep l) = l := by
  induction l with
  | nil => rfl
  | cons c cs ih =>
    simp only [pySplit]
    split
    · rename_i h
      subst h
      cases h' : pySplit c cs with
      | nil => exact absurd h' (pySplit_ne_nil c cs)
      | cons f fs =>
        rw [h'] at ih
        simp only [pyJoin]
        cases fs <;> simp_all [pyJoin]
    · cases h' : pySplit sep cs with
      | nil => exact absurd h' (pySplit_ne_nil sep cs)
      | cons f fs =>
        rw [h'] at ih
        cases fs <;> simp_all [pyJoin]

/-- Test of `EMPTY_LINE_RE = re.compile(r'^\s*$')` via `re.match`: the
pattern matches a line exactly when every character is whitespace
(a trailing newline is itself whitespace). -/
def isEmptyLine (l : List Char) : Bool := l.all isPySpace

/-- Embedding of `strip_labels` (`anntoconll.py` lines 65-85): for each
non-empty line split on TAB, record the first field as the label and re-join
the remaining fields; empty lines yield label `none` and pass through. -/
def strip_labels : List (List Char) → List (Option (List Char)) × List (List Char)
  | [] => ([], [])
  | l :: rest =>
    let (labels, stripped) := strip_labels rest
    if isEmptyLine l then (none :: labels, l :: stripped)
    else
      match pySplit '\t' l with
      | f :: fs => (some f :: labels, pyJoin '\t' fs :: stripped)
      | [] => (none :: labels, l :: stripped)  -- unreachable: pySplit never returns []

/-- Embedding of `attach_labels` (`anntoconll.py` lines 88-108).  The two
source `assert` statements are modelled as `assertionError` results: a
length mismatch, or a label/emptiness disagreement on any line.  (The source
checks the length upfront; erroring at the offending position yields the
same observable result.) -/
def attach_labels : List (Option (List Char)) → List (List Char) →
    Except PyError (List (List Char))
  | [], [] => .ok []
  | label :: labels, line :: lines =>
    match label, isEmptyLine line with
    | none, true =>
      match attach_labels labels lines with
      | .ok rest => .ok (line :: rest)
      | .error e => .error e
    | some lab, false =>
      match attach_labels labels lines with
      | .ok rest => .ok ((lab ++ '\t' :: line) :: rest)
      | .error e => .error e
    | _, _ => .error .assertionError
  | _ :: _, [] => .error .assertionError
  | [], _ :: _ => .error .assertionError

/-- A tab splits a line into at least two fields. -/
theorem pySplit_tail_ne_nil_of_mem {l : List Char} (h : '\t' ∈ l) :
    ∃ f g fs, pySplit '\t' l = f :: g :: fs := by
  induction l with
  | nil => cases h
  | cons c cs ih =>
    simp only [pySplit]
    by_cases hc : c = '\t'
    · subst hc
      simp only [if_pos rfl]
      cases h' : pySplit '\t' cs with
      | nil => exact absurd h' (pySplit_ne_nil '\t' cs)
      | cons f fs => exact ⟨[], f, fs, rfl⟩
    · have hmem : '\t' ∈ cs := by
        cases List.mem_cons.mp h with
        | inl h0 => exact absurd h0.symm hc
        | inr h0 => exact h0
      obtain ⟨f, g, fs, hfg⟩ := ih hmem
      rw [if_neg hc, hfg]
      exact ⟨c :: f, g, fs, rfl⟩

/-- Claim C9 as stated is false: the line `"X\t"` is non-empty and contains
a tab, yet stripping and re-attaching raises an `AssertionError` (the
stripped remainder is empty, so `attach_labels`'s consistency assert
fails), instead of reproducing the input. -/
theorem c9_counterexample :
    (¬ isEmptyLine ['X', '\t'] ∧ '\t' ∈ ['X', '\t']) ∧
    attach_labels (strip_labels [['X', '\t']]).1 (strip_labels [['X', '\t']]).2 =
      .error PyError.assertionError := by
  constructor
  · constructor
    · decide
    · decide
  · rfl

/-- Claim C9, amended: the round trip reproduces the input provided each
line that is not whitespace-only contains a tab and its content after the
first field is not whitespace-only (otherwise `attach_labels`'s assert
fires on the whitespace-only remainder). -/
theorem c9_round_trip (lines : List (List Char))
    (h : ∀ l ∈ lines, ¬ isEmptyLine l →
      '\t' ∈ l ∧ ¬ isEmptyLine (pyJoin '\t' (pySplit '\t' l).tail)) :
    attach_labels (strip_labels lines).1 (strip_labels lines).2 = .ok lines := by
  induction lines with
  | nil => rfl
  | cons l rest ih =>
    have hrest : attach_labels (strip_labels rest).1 (strip_labels rest).2 = .ok rest :=
      ih (fun x hx => h x (List.mem_cons_of_mem l hx))
    simp only [strip_labels]
    by_cases he : isEmptyLine l
    · simp only [if_pos he, attach_labels, he, hrest]
    · obtain ⟨htab, hne⟩ := h l (List.mem_cons_self l rest) he
      obtain ⟨f, g, fs, hsplit⟩ := pySplit_tail_ne_nil_of_mem htab
      simp only [if_neg he, hsplit]
      have hne' : isEmptyLine (pyJoin '\t' (g :: fs)) = false := by
        rw [hsplit] at hne
        simpa using hne
      simp only [attach_labels, hne', hrest]
      have hjoin : f ++ '\t' :: pyJoin '\t' (g :: fs) = l := by
        have := pyJoin_pySplit '\t' l
        rw [hsplit] at this
        simpa [pyJoin] using this
      rw [hjoin]

theorem c9_round_trip_witness :
    attach_labels (strip_labels [['a', '\t', 'b'], [' ', '\n']]).1
      (strip_labels [['a', '\t', 'b'], [' ', '\n']]).2 =
      .ok [['a', '\t', 'b'], [' ', '\n']] :=
  c9_round_trip [['a', '\t', 'b'], [' ', '\n']] (by decide)

/-- ASCII alphanumeric characters, the `[0-9a-zA-Z]` class of
`TOKENIZATION_REGEX` (`anntoconll.py` line 114). -/
def isAsciiAlnum (c : Char) : Bool :=
  ('0' ≤ c && c ≤ '9') || ('a' ≤ c && c ≤ 'z') || ('A' ≤ c && c ≤ 'Z')

/-- Embedding of `PRETOKENIZED_REGEX.findall(line)` with
`PRETOKENIZED_REGEX = re.compile(r'\S+|\s+')` (the `none` strategy,
`anntoconll.py` line 131): the line is cut into maximal runs of
same-classed (whitespace vs. non-whitespace) characters.  `findall` never
yields an empty string, so the source's `if t` filter is a no-op. -/
def pretokenize : List Char → List (List Char)
  | [] => []
  | c :: cs =>
    match pretokenize cs with
    | (d :: t) :: rest =>
      if isPySpace c = isPySpace d then (c :: d :: t) :: rest
      else [c] :: (d :: t) :: rest
    | other => [c] :: other

/-- Embedding of `[t for t in TOKENIZATION_REGEX.split(s) if t]` with
`TOKENIZATION_REGEX = re.compile(r'([0-9a-zA-Z]+|[^0-9a-zA-Z])')`
(`anntoconll.py` lines 114 and 145): maximal ASCII-alphanumeric runs are
single tokens, every other character is its own token.  The `re.split`
gaps between matches are always empty and are removed by the source's
`if t` filter, so they are not produced here. -/
def nersuiteTokenize : List Char → List (List Char)
  | [] => []
  | c :: cs =>
    if isAsciiAlnum c then
      match nersuiteTokenize cs with
      | (d :: t) :: rest =>
        if isAsciiAlnum d then (c :: d :: t) :: rest
        else [c] :: (d :: t) :: rest
      | other => [c] :: other
    else [c] :: nersuiteTokenize cs

/-- Embedding of `NEWLINE_TERM_REGEX.split(line)` with
`NEWLINE_TERM_REGEX = re.compile(r'(.*?\n)')` (`anntoconll.py` lines 117
and 144): the line is cut into newline-terminated chunks plus the trailing
remainder.  The empty gap strings interleaved by `re.split` tokenize to
nothing and are dropped by the source's sentence filter, so they are not
produced here. -/
def splitNewlineTerm : List Char → List (List Char)
  | [] => [[]]
  | c :: cs =>
    if c = '\n' then ['\n'] :: splitNewlineTerm cs
    else
      match splitNewlineTerm cs with
      | f :: rest => (c :: f) :: rest
      | [] => [[c]]

/-- Embedding of the `regex` strategy's per-line sentence loop
(`anntoconll.py` lines 144-147), downstream of the external sentence
splitter: each newline-terminated chunk is tokenized and empty sentences
are dropped (`if tokenized`). -/
def regexTokenSentences (line : List Char) : List (List (List Char)) :=
  ((splitNewlineTerm line).map nersuiteTokenize).filter (· ≠ [])

theorem pretokenize_flatten (l : List Char) : (pretokenize l).flatten = l := by
  induction l with
  | nil => rfl
  | cons c cs ih =>
    simp only [pretokenize]
    cases h : pretokenize cs with
    | nil => rw [h] at ih; simp [List.flatten, ← ih]
    | cons f rest =>
      rw [h] at ih
      cases f with
      | nil => simp_all [List.flatten]
      | cons d t =>
        by_cases hc : isPySpace c = isPySpace d <;> simp_all [List.flatten]

theorem nersuiteTokenize_flatten (l : List Char) :
    (nersuiteTokenize l).flatten = l := by
  induction l with
  | nil => rfl
  | cons c cs ih =>
    simp only [nersuiteTokenize]
    by_cases ha : isAsciiAlnum c
    · simp only [if_pos ha]
      cases h : nersuiteTokenize cs with
      | nil => rw [h] at ih; simp [List.flatten, ← ih]
      | cons f rest =>
        rw [h] at ih
        cases f with
        | nil => simp_all [List.flatten]
        | cons d t =>
          by_cases hd : isAsciiAlnum d <;> simp_all [List.flatten]
    · simp [if_neg ha, List.flatten, ih]

theorem splitNewlineTerm_ne_nil (l : List Char) : splitNewlineTerm l ≠ [] := by
  cases l with
  | nil => simp [splitNewlineTerm]
  | cons c cs =>
    simp only [splitNewlineTerm]
    split
    · simp
    · split <;> simp_all

theorem splitNewlineTerm_flatten (l : List Char) :
    (splitNewlineTerm l).flatten = l := by
  induction l with
  | nil => rfl
  | cons c cs ih =>
    simp only [splitNewlineTerm]
    by_cases hc : c = '\n'
    · subst hc; simp [List.flatten, ih]
    · simp only [if_neg hc]
      cases h : splitNewlineTerm cs with
      | nil => exact absurd h (splitNewlineTerm_ne_nil cs)
      | cons f rest => rw [h] at ih; simp_all [List.flatten]

theorem flatten_filter_ne_nil (xs : List (List (List Char))) :
    ((xs.filter (· ≠ [])).map List.flatten).flatten =
      (xs.map List.flatten).flatten := by
  induction xs with
  | nil => rfl
  | cons x rest ih =>
    rw [List.filter_cons]
    cases hdec : (decide (x ≠ []) : Bool) with
    | false =>
      have hx : x = [] := by simpa using hdec
      subst hx
      simpa using ih
    | true =>
      simp only [if_true, List.map_cons, List.flatten_cons, ih]

/-- Claim C3: every in-repository tokenization strategy is
offset-preserving — concatenating all tokens (whitespace included)
reproduces the tokenized line exactly.  The first conjunct is the `none`
(pre-tokenized) strategy, the second the `regex` strategy's NERsuite
tokenizer on a single sentence, and the third the `regex` strategy's full
per-line loop including the newline-chunk split and the empty-sentence
filter.  (The `syntok` strategy delegates to an external library that is
not part of this repository.) -/
theorem c3_offset_preservation :
    (∀ l : List Char, (pretokenize l).flatten = l) ∧
    (∀ l : List Char, (nersuiteTokenize l).flatten = l) ∧
    (∀ line : List Char,
      ((regexTokenSentences line).map List.flatten).flatten = line) := by
  refine ⟨pretokenize_flatten, nersuiteTokenize_flatten, fun line => ?_⟩
  unfold regexTokenSentences
  rw [flatten_filter_ne_nil, List.map_map]
  have h : (splitNewlineTerm line).map (List.flatten ∘ nersuiteTokenize) =
      (splitNewlineTerm line).map id :=
    List.map_congr_left (fun s _ => nersuiteTokenize_flatten s)
  rw [h, List.map_id]
  exact splitNewlineTerm_flatten line

/-- A textbound annotation (`Textbound = namedtuple('Textbound', 'start end type text')`,
`anntoconll.py` line 279).  The source field `end` is a Lean keyword and is
rendered `stop`; offsets are Python ints. -/
structure Textbound where
  start : Int
  stop : Int
  type : String
  text : String
  deriving DecidableEq, Repr, Inhabited

/-- Length of a span, `t.end - t.start`. -/
def tbLen (t : Textbound) : Int := t.stop - t.start

/-- The overlap relation of `eliminate_overlaps` (`anntoconll.py` line 322):
two spans overlap unless `t2.start >= t1.end or t2.end <= t1.start`. -/
def overlaps (t1 t2 : Textbound) : Bool :=
  !(decide (t2.start ≥ t1.stop) || decide (t2.stop ≤ t1.start))

theorem overlaps_iff (t1 t2 : Textbound) :
    overlaps t1 t2 = true ↔ t2.start < t1.stop ∧ t1.start < t2.stop := by
  simp only [overlaps, Bool.not_eq_true', Bool.or_eq_false_iff, decide_eq_false_iff_not,
    not_le]

theorem overlaps_symm (t1 t2 : Textbound) : overlaps t1 t2 = overlaps t2 t1 := by
  have h1 := overlaps_iff t1 t2
  have h2 := overlaps_iff t2 t1
  by_cases h : t2.start < t1.stop ∧ t1.start < t2.stop
  · rw [h1.mpr h, h2.mpr ⟨h.2, h.1⟩]
  · have e1 : overlaps t1 t2 = false := by
      cases ho : overlaps t1 t2
      · rfl
      · exact absurd (h1.mp ho) h
    have e2 : overlaps t2 t1 = false := by
      cases ho : overlaps t2 t1
      · rfl
      · exact absurd (h2.mp ho) (fun hc => h ⟨hc.2, hc.1⟩)
    rw [e1, e2]

/-- The set of spans flagged for elimination by the double loop of
`eliminate_overlaps` (`anntoconll.py` lines 315-332).  The source iterates
over all ordered pairs of list elements and skips the pair when `t1 is t2`;
since the list holds one distinct object per mapping entry, object identity
is modelled as index inequality over `enum`.  The source records flagged
spans as keys of the `eliminate` dict (value equality); only membership in
that key set is ever used, so the flags are collected in a list. -/
def elimPass (textbounds : List Textbound) : List Textbound :=
  textbounds.enum.flatMap fun p1 =>
    textbounds.enum.filterMap fun p2 =>
      if p1.1 = p2.1 then none
      else if decide (p2.2.start ≥ p1.2.stop) || decide (p2.2.stop ≤ p1.2.start) then none
      else if p1.2.stop - p1.2.start > p2.2.stop - p2.2.start then some p2.2
      else some p1.2

/-- Embedding of `eliminate_overlaps` (`anntoconll.py` lines 314-334):
return the input spans, in order, that were not flagged. -/
def eliminate_overlaps (textbounds : List Textbound) : List Textbound :=
  textbounds.filter fun t => decide (t ∉ elimPass textbounds)

theorem mk_mem_enum_of_getElem {l : List Textbound} {i : Nat} (hi : i < l.length) :
    (i, l[i]) ∈ l.enum := by
  rw [List.mk_mem_enum_iff_getElem?]
  exact List.getElem?_eq_getElem hi

/-- If an ordered index pair overlaps, the pass flags the shorter member
(the first member on a tie). -/
theorem elimPass_flags {tbs : List Textbound} {i j : Nat}
    (hi : i < tbs.length) (hj : j < tbs.length) (hne : i ≠ j)
    (hov : overlaps tbs[i] tbs[j] = true) :
    (tbLen tbs[i] > tbLen tbs[j] → tbs[j] ∈ elimPass tbs) ∧
    (¬ tbLen tbs[i] > tbLen tbs[j] → tbs[i] ∈ elimPass tbs) := by
  have hmem1 : (i, tbs[i]) ∈ tbs.enum := mk_mem_enum_of_getElem hi
  have hmem2 : (j, tbs[j]) ∈ tbs.enum := mk_mem_enum_of_getElem hj
  have hov' : (decide (tbs[j].start ≥ tbs[i].stop) ||
      decide (tbs[j].stop ≤ tbs[i].start)) = false := by
    simpa [overlaps] using hov
  constructor
  · intro hlen
    rw [elimPass, List.mem_flatMap]
    refine ⟨(i, tbs[i]), hmem1, ?_⟩
    rw [List.mem_filterMap]
    refine ⟨(j, tbs[j]), hmem2, ?_⟩
    simp only [if_neg hne, hov', Bool.false_eq_true, if_false]
    rw [if_pos]
    exact hlen
  · intro hlen
    rw [elimPass, List.mem_flatMap]
    refine ⟨(i, tbs[i]), hmem1, ?_⟩
    rw [List.mem_filterMap]
    refine ⟨(j, tbs[j]), hmem2, ?_⟩
    simp only [if_neg hne, hov', Bool.false_eq_true, if_false]
    rw [if_neg]
    exact hlen

/-- Every flagged span comes from an overlapping ordered index pair. -/
theorem elimPass_mem_inv {tbs : List Textbound} {t : Textbound}
    (h : t ∈ elimPass tbs) :
    ∃ i j, ∃ hi : i < tbs.length, ∃ hj : j < tbs.length, i ≠ j ∧
      overlaps tbs[i] tbs[j] = true ∧
      ((tbLen tbs[i] > tbLen tbs[j] ∧ t = tbs[j]) ∨
       (¬ tbLen tbs[i] > tbLen tbs[j] ∧ t = tbs[i])) := by
  rw [elimPass, List.mem_flatMap] at h
  obtain ⟨p1, hp1, h⟩ := h
  rw [List.mem_filterMap] at h
  obtain ⟨p2, hp2, heq⟩ := h
  rw [List.mem_enum_iff_getElem?] at hp1 hp2
  have hi : p1.1 < tbs.length := (List.getElem?_eq_some_iff.mp hp1).1
  have hj : p2.1 < tbs.length := (List.getElem?_eq_some_iff.mp hp2).1
  have he1 : tbs[p1.1] = p1.2 := by
    have := (List.getElem?_eq_some_iff.mp hp1).2; exact this
  have he2 : tbs[p2.1] = p2.2 := by
    have := (List.getElem?_eq_some_iff.mp hp2).2; exact this
  refine ⟨p1.1, p2.1, hi, hj, ?_, ?_, ?_⟩
  · intro hc
    rw [if_pos hc] at heq
    exact Option.noConfusion heq
  · by_cases hne : p1.1 = p2.1
    · rw [if_pos hne] at heq; exact Option.noConfusion heq
    · rw [if_neg hne] at heq
      by_cases hov : (decide (p2.2.start ≥ p1.2.stop) ||
          decide (p2.2.stop ≤ p1.2.start)) = true
      · rw [if_pos hov] at heq; exact Option.noConfusion heq
      · rw [he1, he2, overlaps]
        simpa using hov
  · by_cases hne : p1.1 = p2.1
    · rw [if_pos hne] at heq; exact Option.noConfusion heq
    · rw [if_neg hne] at heq
      by_cases hov : (decide (p2.2.start ≥ p1.2.stop) ||
          decide (p2.2.stop ≤ p1.2.start)) = true
      · rw [if_pos hov] at heq; exact Option.noConfusion heq
      · rw [if_neg hov] at heq
        rw [he1, he2]
        by_cases hlen : p1.2.stop - p1.2.start > p2.2.stop - p2.2.start
        · rw [if_pos hlen] at heq
          left
          refine ⟨by simpa [tbLen] using hlen, (Option.some.injEq _ _ ▸ heq).symm⟩
        · rw [if_neg hlen] at heq
          right
          refine ⟨by simpa [tbLen] using hlen, (Option.some.injEq _ _ ▸ heq).symm⟩

theorem mem_elimPass_of_not_mem_filter {tbs : List Textbound} {t : Textbound}
    (hmem : t ∈ tbs) (h : t ∉ eliminate_overlaps tbs) : t ∈ elimPass tbs := by
  by_contra hn
  exact h (List.mem_filter.mpr ⟨hmem, by simpa using hn⟩)

theorem not_mem_filter_of_mem_elimPass {tbs : List Textbound} {t : Textbound}
    (h : t ∈ elimPass tbs) : t ∉ eliminate_overlaps tbs := by
  intro hmem
  have := (List.mem_filter.mp hmem).2
  simp only [decide_eq_true_eq] at this
  exact this h

/-- Claim C1: the resolver's output is an order-preserving subsequence of
its input, no two spans at distinct output positions overlap, and every
eliminated span is overlapped by a span at another input position of length
at least its own. -/
theorem c1_overlap_resolution (tbs : List Textbound) :
    (eliminate_overlaps tbs).Sublist tbs ∧
    List.Pairwise (fun a b => overlaps a b = false) (eliminate_overlaps tbs) ∧
    (∀ i, ∀ hi : i < tbs.length, tbs[i] ∉ eliminate_overlaps tbs →
      ∃ j, ∃ hj : j < tbs.length, j ≠ i ∧ tbLen tbs[i] ≤ tbLen tbs[j] ∧
        overlaps tbs[j] tbs[i] = true) := by
  refine ⟨List.filter_sublist tbs, ?_, ?_⟩
  · rw [eliminate_overlaps, List.pairwise_filter]
    rw [List.pairwise_iff_getElem]
    intro i j hi hj hij hpi hpj
    by_contra hov
    have hov' : overlaps tbs[i] tbs[j] = true := by
      cases h : overlaps tbs[i] tbs[j]
      · exact absurd h hov
      · rfl
    have hne : i ≠ j := Nat.ne_of_lt hij
    have hflags := elimPass_flags hi hj hne hov'
    by_cases hlen : tbLen tbs[i] > tbLen tbs[j]
    · exact hpj (hflags.1 hlen)
    · exact hpi (hflags.2 hlen)
  · intro i hi hnot
    have hin : tbs[i] ∈ elimPass tbs :=
      mem_elimPass_of_not_mem_filter (List.getElem_mem hi) hnot
    obtain ⟨a, b, ha, hb, hab, hov, hcase⟩ := elimPass_mem_inv hin
    rcases hcase with ⟨hlen, heq⟩ | ⟨hlen, heq⟩
    · -- flagged as the second member of the pair: the first member is longer
      refine ⟨a, ha, ?_, ?_, ?_⟩
      · intro hai
        subst hai
        rw [← heq] at hlen
        exact lt_irrefl _ hlen
      · rw [heq]; exact le_of_lt hlen
      · rw [heq]; exact hov
    · -- flagged as the first member of the pair: the second is at least as long
      by_cases hbi : b = i
      · subst hbi
        exact ⟨a, ha, hab, by rw [heq], hov⟩
      · refine ⟨b, hb, hbi, ?_, ?_⟩
        · rw [heq]; exact le_of_not_lt hlen
        · rw [heq, ← overlaps_symm]
          exact hov

/-- The two overlapping spans of the spec's Example 2 (lengths 7 and 6). -/
def c1tbs : List Textbound := [⟨0, 7, "A", "x"⟩, ⟨4, 10, "B", "y"⟩]

theorem c1_overlap_resolution_witness :
    ∃ j, ∃ hj : j < c1tbs.length, j ≠ 1 ∧
      tbLen (c1tbs.get ⟨1, by decide⟩) ≤ tbLen (c1tbs.get ⟨j, hj⟩) ∧
      overlaps (c1tbs.get ⟨j, hj⟩) (c1tbs.get ⟨1, by decide⟩) = true :=
  (c1_overlap_resolution c1tbs).2.2 1 (by decide) (by decide)

/-- Claim C7: a pair of spans at distinct input positions that overlap and
have exactly equal length is flagged by both passes, and neither appears in
the resolver's output. -/
theorem c7_equal_length_ties (tbs : List Textbound) (i j : Nat)
    (hi : i < tbs.length) (hj : j < tbs.length) (hne : i ≠ j)
    (hov : overlaps tbs[i] tbs[j] = true)
    (hlen : tbLen tbs[i] = tbLen tbs[j]) :
    tbs[i] ∈ elimPass tbs ∧ tbs[j] ∈ elimPass tbs ∧
    tbs[i] ∉ eliminate_overlaps tbs ∧ tbs[j] ∉ eliminate_overlaps tbs := by
  have h1 : tbs[i] ∈ elimPass tbs :=
    (elimPass_flags hi hj hne hov).2 (by rw [hlen]; exact lt_irrefl _)
  have hov' : overlaps tbs[j] tbs[i] = true := by rw [← overlaps_symm]; exact hov
  have h2 : tbs[j] ∈ elimPass tbs :=
    (elimPass_flags hj hi (Ne.symm hne) hov').2 (by rw [hlen]; exact lt_irrefl _)
  exact ⟨h1, h2, not_mem_filter_of_mem_elimPass h1, not_mem_filter_of_mem_elimPass h2⟩

theorem c7_equal_length_ties_witness :
    (⟨0, 2, "A", "a"⟩ : Textbound) ∉
        eliminate_overlaps [⟨0, 2, "A", "a"⟩, ⟨1, 3, "B", "b"⟩] ∧
    (⟨1, 3, "B", "b"⟩ : Textbound) ∉
        eliminate_overlaps [⟨0, 2, "A", "a"⟩, ⟨1, 3, "B", "b"⟩] := by
  have h := c7_equal_length_ties [⟨0, 2, "A", "a"⟩, ⟨1, 3, "B", "b"⟩] 0 1
    (by decide) (by decide) (by decide) (by decide) (by decide)
  exact ⟨h.2.2.1, h.2.2.2⟩

/-- A record of the CoNLL line list built by `text_to_conll`: either the
empty list `[]` marking a sentence boundary, or a `[tag, start, end, token]`
record (`anntoconll.py` lines 172 and 178). -/
inductive Line where
  | boundary
  | token (tag : String) (start : Int) (stop : Int) (text : String)
  deriving DecidableEq, Repr

/-- The tag field of a record, `none` for a sentence boundary. -/
def lineTag : Line → Option String
  | .boundary => none
  | .token tag _ _ _ => some tag

/-- The diagnostic messages `relabel` prints to stderr (`anntoconll.py`
lines 197 and 212): an overlapping-annotations warning during map
building, and a boundary-mismatch warning naming the token text and the
annotation text. -/
inductive Warning where
  | overlapping
  | boundaryMismatch (token : String) (anntext : String)
  deriving DecidableEq, Repr

/-- Python `range(s, e)` over ints: `s, s+1, ..., e-1`, empty when `e ≤ s`. -/
def intRange (s e : Int) : List Int :=
  (List.range (e - s).toNat).map (fun k => s + k)

/-- Embedding of the `offset_label` map construction (`anntoconll.py`
lines 192-198): each span claims every offset in `[start, end)`, later
spans override earlier ones, and a warning is recorded whenever an offset
is claimed twice. -/
def buildOffsetLabel (anns : List Textbound) : (Int → Option Textbound) × List Warning :=
  anns.foldl
    (fun acc tb =>
      (intRange tb.start tb.stop).foldl
        (fun acc2 i =>
          (fun j => if j = i then some tb else acc2.1 j,
           if (acc2.1 i).isSome then acc2.2 ++ [Warning.overlapping] else acc2.2))
        acc)
    (fun _ => none, [])

/-- The first offset of `range(start, end)` present in `offset_label`
(the search loop of `anntoconll.py` lines 209-215). -/
def findLabelOffset (m : Int → Option Textbound) (s e : Int) : Option Int :=
  (intRange s e).find? fun o => (m o).isSome

/-- Embedding of the token loop of `relabel` (`anntoconll.py` lines
200-224), carrying `prev_label` and collecting the boundary-mismatch
warnings.  When no offset of the token is claimed, the input tag is left
unchanged; otherwise the claiming span's type is emitted with an `I-`
tag when it equals `prev_label` and a `B-` tag otherwise, and
`prev_label` becomes the found label.  (The inner `none` branch of the
map lookup is unreachable: `find?` only returns claimed offsets.) -/
def relabelAux (m : Int → Option Textbound) : Option String → List Line →
    List Line × List Warning
  | _, [] => ([], [])
  | _, Line.boundary :: rest =>
    let r := relabelAux m none rest
    (Line.boundary :: r.1, r.2)
  | prev, Line.token tag s e tok :: rest =>
    match findLabelOffset m s e with
    | none =>
      let r := relabelAux m none rest
      (Line.token tag s e tok :: r.1, r.2)
    | some o =>
      match m o with
      | some tb =>
        let tag' := if prev = some tb.type then "I-" ++ tb.type else "B-" ++ tb.type
        let w := if o = s then [] else [Warning.boundaryMismatch tok tb.text]
        let r := relabelAux m (some tb.type) rest
        (Line.token tag' s e tok :: r.1, w ++ r.2)
      | none =>
        let r := relabelAux m none rest
        (Line.token tag s e tok :: r.1, r.2)

/-- Embedding of the single-class collapsing block (`anntoconll.py` lines
227-230): every non-`O` tag keeps its first two characters and gets the
configured class. -/
def applySingleclass (sc : String) : List Line → List Line :=
  List.map fun l =>
    match l with
    | Line.boundary => Line.boundary
    | Line.token tag s e tok =>
      if tag ≠ "O" then Line.token (tag.take 2 ++ sc) s e tok
      else Line.token tag s e tok

/-- Embedding of `relabel` (`anntoconll.py` lines 188-232): build the
offset map (collecting overlap warnings), run the token loop (collecting
boundary-mismatch warnings), then optionally single-class the tags. -/
def relabel (singleclass : Option String) (lines : List Line)
    (anns : List Textbound) : List Line × List Warning :=
  let mw := buildOffsetLabel anns
  let r := relabelAux mw.1 none lines
  (match singleclass with
   | none => r.1
   | some sc => applySingleclass sc r.1,
   mw.2 ++ r.2)

/-- All token records of the input carry the placeholder tag `O`, as
produced by `text_to_conll` (`anntoconll.py` line 172). -/
def allO (lines : List Line) : Bool :=
  lines.all fun l =>
    match l with
    | Line.boundary => true
    | Line.token tag _ _ _ => decide (tag = "O")

theorem string_append_cancel {p a b : String} (h : p ++ a = p ++ b) : a = b := by
  have hd : p.data ++ a.data = p.data ++ b.data := congrArg String.data h
  have h2 := List.append_cancel_left hd
  cases a; cases b
  exact congrArg String.mk h2

theorem tag_B_ne_I (a b : String) : "B-" ++ a ≠ "I-" ++ b := by
  intro h
  have hd : ("B-" ++ a).data = ("I-" ++ b).data := congrArg String.data h
  have : ('B' : Char) = 'I' := by simpa using congrArg (List.headD · ' ') hd
  simp at this

theorem tag_O_ne_I (a : String) : "O" ≠ "I-" ++ a := by
  intro h
  have hd : ("O" : String).data = ("I-" ++ a).data := congrArg String.data h
  have : ('O' : Char) = 'I' := by simpa using congrArg (List.headD · ' ') hd
  simp at this

theorem tag_O_ne_B (a : String) : "O" ≠ "B-" ++ a := by
  intro h
  have hd : ("O" : String).data = ("B-" ++ a).data := congrArg String.data h
  have : ('O' : Char) = 'B' := by simpa using congrArg (List.headD · ' ') hd
  simp at this

/-- BIO consistency, first half: an `I-` tag may only directly follow (in
the same sentence) a `B-` or `I-` tag of the same type — never an `O`
token, a sentence start, or a token of a different type. -/
def bioFollows (prevTag : Option String) (tag : String) : Prop :=
  ∀ lab : String, tag = "I-" ++ lab →
    prevTag = some ("B-" ++ lab) ∨ prevTag = some ("I-" ++ lab)

/-- BIO consistency, second half: a `B-` tag never directly follows a tag
of the same type, so each maximal same-type run of non-`O` tags has its
only `B-` at the start. -/
def bioSingleB (prevTag : Option String) (tag : String) : Prop :=
  ∀ lab : String, tag = "B-" ++ lab →
    prevTag ≠ some ("B-" ++ lab) ∧ prevTag ≠ some ("I-" ++ lab)

/-- BIO consistency over a line list, threading the tag of the previous
token within the current sentence (`none` at a sentence start). -/
def bioConsistentAux : Option String → List Line → Prop
  | _, [] => True
  | _, Line.boundary :: rest => bioConsistentAux none rest
  | prevTag, Line.token tag _ _ _ :: rest =>
    bioFollows prevTag tag ∧ bioSingleB prevTag tag ∧
      bioConsistentAux (some tag) rest

def bioConsistent (lines : List Line) : Prop := bioConsistentAux none lines

/-- Correspondence between the `prev_label` state of the token loop and
the tag of the previous token: a `none` label means the previous token (if
any) kept its placeholder `O`, a `some lab` label means it was tagged
`B-lab` or `I-lab`. -/
def prevMatches : Option String → Option String → Prop
  | none, pt => pt = none ∨ pt = some "O"
  | some lab, pt => pt = some ("B-" ++ lab) ∨ pt = some ("I-" ++ lab)

theorem allO_cons {l : Line} {rest : List Line}
    (h : allO (l :: rest) = true) :
    (∀ tag s e tok, l = Line.token tag s e tok → tag = "O") ∧ allO rest = true := by
  rw [allO, List.all_cons, Bool.and_eq_true] at h
  refine ⟨?_, h.2⟩
  intro tag s e tok hl
  subst hl
  simpa using h.1

theorem relabelAux_bioConsistent (m : Int → Option Textbound) :
    ∀ lines : List Line, allO lines = true →
      ∀ prev pt : Option String, prevMatches prev pt →
        bioConsistentAux pt (relabelAux m prev lines).1 := by
  intro lines
  induction lines with
  | nil =>
    intro _ prev pt _
    simp [relabelAux, bioConsistentAux]
  | cons l rest ih =>
    intro hO prev pt hmatch
    obtain ⟨htok, hOrest⟩ := allO_cons hO
    cases l with
    | boundary =>
      simp only [relabelAux]
      exact ih hOrest none none (Or.inl rfl)
    | token tag s e tok =>
      have htag : tag = "O" := htok tag s e tok rfl
      subst htag
      simp only [relabelAux]
      cases hfo : findLabelOffset m s e with
      | none =>
        dsimp only
        refine ⟨?_, ?_, ?_⟩
        · intro lab h
          exact absurd h (tag_O_ne_I lab)
        · intro lab h
          exact absurd h (tag_O_ne_B lab)
        · exact ih hOrest none (some "O") (Or.inr rfl)
      | some o =>
        dsimp only
        cases hmo : m o with
        | none =>
          dsimp only
          refine ⟨?_, ?_, ?_⟩
          · intro lab h
            exact absurd h (tag_O_ne_I lab)
          · intro lab h
            exact absurd h (tag_O_ne_B lab)
          · exact ih hOrest none (some "O") (Or.inr rfl)
        | some tb =>
          dsimp only
          by_cases hprev : prev = some tb.type
          · simp only [if_pos hprev]
            refine ⟨?_, ?_, ?_⟩
            · intro lab h
              have hlab : tb.type = lab := string_append_cancel h
              subst hlab
              subst hprev
              exact hmatch
            · intro lab h
              exact absurd h.symm (tag_B_ne_I lab tb.type)
            · exact ih hOrest (some tb.type) (some ("I-" ++ tb.type)) (Or.inr rfl)
          · simp only [if_neg hprev]
            refine ⟨?_, ?_, ?_⟩
            · intro lab h
              exact absurd h (tag_B_ne_I tb.type lab)
            · intro lab h
              have hlab : tb.type = lab := string_append_cancel h
              subst hlab
              cases hp : prev with
              | none =>
                rw [hp] at hmatch
                rcases hmatch with hpt | hpt <;> subst hpt
                · exact ⟨Option.noConfusion, Option.noConfusion⟩
                · constructor
                  · intro hc
                    exact tag_O_ne_B tb.type (Option.some.injEq _ _ ▸ hc)
                  · intro hc
                    exact tag_O_ne_I tb.type (Option.some.injEq _ _ ▸ hc)
              | some lab2 =>
                rw [hp] at hmatch hprev
                have hne : lab2 ≠ tb.type := fun hc => hprev (by rw [hc])
                rcases hmatch with hpt | hpt <;> subst hpt
                · constructor
                  · intro hc
                    have := string_append_cancel (Option.some.injEq _ _ ▸ hc : "B-" ++ lab2 = "B-" ++ tb.type)
                    exact hne this
                  · intro hc
                    exact tag_B_ne_I lab2 tb.type (Option.some.injEq _ _ ▸ hc)
                · constructor
                  · intro hc
                    exact tag_B_ne_I tb.type lab2 ((Option.some.injEq _ _ ▸ hc : "I-" ++ lab2 = "B-" ++ tb.type)).symm
                  · intro hc
                    have := string_append_cancel (Option.some.injEq _ _ ▸ hc : "I-" ++ lab2 = "I-" ++ tb.type)
                    exact hne this
            · exact ih hOrest (some tb.type) (some ("B-" ++ tb.type)) (Or.inl rfl)

/-- Claim C2: on placeholder-tagged input lines and any span set given to
`relabel` (default configuration, no single-class override), the output is
BIO-consistent: no `I-` tag directly follows, within a sentence, an `O`
token, a sentence start, or a token of another type, and each maximal
same-type run of non-`O` tags has exactly one `B-`, at its start. -/
theorem c2_bio_consistency (lines : List Line) (anns : List Textbound)
    (hO : allO lines = true)
    (_hpair : List.Pairwise (fun a b => overlaps a b = false) anns) :
    bioConsistent (relabel none lines anns).1 := by
  exact relabelAux_bioConsistent (buildOffsetLabel anns).1 lines hO none none (Or.inl rfl)

theorem relabelAux_frame (m : Int → Option Textbound) (lines : List Line) :
    ∀ prev : Option String,
      List.Forall₂ (fun lin lout =>
        match lin with
        | Line.boundary => lout = Line.boundary
        | Line.token _ s e tok => ∃ tagB, lout = Line.token tagB s e tok)
        lines (relabelAux m prev lines).1 := by
  induction lines with
  | nil => intro prev; exact List.Forall₂.nil
  | cons l rest ih =>
    intro prev
    cases l with
    | boundary =>
      simp only [relabelAux]
      exact List.Forall₂.cons rfl (ih none)
    | token tag s e tok =>
      simp only [relabelAux]
      cases hfo : findLabelOffset m s e with
      | none => exact List.Forall₂.cons ⟨tag, rfl⟩ (ih none)
      | some o =>
        dsimp only
        cases hmo : m o with
        | none => exact List.Forall₂.cons ⟨tag, rfl⟩ (ih none)
        | some tb =>
          dsimp only
          exact List.Forall₂.cons ⟨_, rfl⟩ (ih (some tb.type))

/-- Claim C10: for any configuration, `relabel` preserves each input
record's start offset, end offset and token text, changing only the tag
field, and passes sentence-boundary records through unchanged. -/
theorem c10_relabel_frame (sc : Option String) (lines : List Line)
    (anns : List Textbound) :
    List.Forall₂ (fun lin lout =>
      match lin with
      | Line.boundary => lout = Line.boundary
      | Line.token _ s e tok => ∃ tagB, lout = Line.token tagB s e tok)
      lines (relabel sc lines anns).1 := by
  cases sc with
  | none => exact relabelAux_frame _ lines none
  | some c =>
    have h := relabelAux_frame (buildOffsetLabel anns).1 lines none
    show List.Forall₂ _ lines
      (applySingleclass c (relabelAux (buildOffsetLabel anns).1 none lines).1)
    rw [applySingleclass, List.forall₂_map_right_iff]
    refine List.Forall₂.imp ?_ h
    intro lin lout hr
    cases lin with
    | boundary => rw [hr]
    | token tag s e tok =>
      obtain ⟨tagB, hl⟩ := hr
      subst hl
      dsimp only
      split
      · exact ⟨_, rfl⟩
      · exact ⟨_, rfl⟩

theorem c2_bio_consistency_witness :
    bioConsistent (relabel none
      [Line.token "O" 0 4 "John", Line.token "O" 5 8 "ran", Line.boundary]
      [⟨0, 4, "PERSON", "John"⟩]).1 :=
  c2_bio_consistency
    [Line.token "O" 0 4 "John", Line.token "O" 5 8 "ran", Line.boundary]
    [⟨0, 4, "PERSON", "John"⟩] (by decide) (by decide)

/-- Per-token specification of the label projection, relative to the claimed
offset map `m` and a warning collection `W`: an unclaimed token keeps its
placeholder `O`, a token whose first claimed offset is `o` gets the claiming
span's type under a `B-` or `I-` prefix, and when `o` is not the token's
start a boundary-mismatch warning is in `W`. -/
def c8Rel (m : Int → Option Textbound) (W : List Warning) (lin lout : Line) : Prop :=
  match lin with
  | Line.boundary => True
  | Line.token _ s e tok =>
    match findLabelOffset m s e with
    | none => lineTag lout = some "O"
    | some o => ∃ tb, m o = some tb ∧
        (lineTag lout = some ("B-" ++ tb.type) ∨
         lineTag lout = some ("I-" ++ tb.type)) ∧
        (o ≠ s → Warning.boundaryMismatch tok tb.text ∈ W)

theorem relabelAux_c8 (m : Int → Option Textbound) (lines : List Line) :
    allO lines = true →
    ∀ (prev : Option String) (W : List Warning),
      (relabelAux m prev lines).2 ⊆ W →
      List.Forall₂ (c8Rel m W) lines (relabelAux m prev lines).1 := by
  induction lines with
  | nil =>
    intro _ prev W _
    exact List.Forall₂.nil
  | cons l rest ih =>
    intro hO prev W hsub
    obtain ⟨htok, hOrest⟩ := allO_cons hO
    cases l with
    | boundary =>
      simp only [relabelAux] at hsub ⊢
      exact List.Forall₂.cons trivial (ih hOrest none W hsub)
    | token tag s e tok =>
      have htag : tag = "O" := htok tag s e tok rfl
      subst htag
      simp only [relabelAux] at hsub ⊢
      cases hfo : findLabelOffset m s e with
      | none =>
        rw [hfo] at hsub
        dsimp only at hsub ⊢
        refine List.Forall₂.cons ?_ (ih hOrest none W hsub)
        show c8Rel m W (Line.token "O" s e tok) (Line.token "O" s e tok)
        rw [c8Rel, hfo]
        rfl
      | some o =>
        rw [hfo] at hsub
        dsimp only at hsub ⊢
        cases hmo : m o with
        | none =>
          have hfo2 : (intRange s e).find? (fun x => (m x).isSome) = some o := hfo
          have hcl : (m o).isSome = true :=
            @List.find?_some Int (fun x => (m x).isSome) o (intRange s e) hfo2
          rw [hmo] at hcl
          exact absurd hcl (by simp)
        | some tb =>
          rw [hmo] at hsub
          dsimp only at hsub ⊢
          have hsub2 : (relabelAux m (some tb.type) rest).2 ⊆ W :=
            fun x hx => hsub (List.mem_append_right _ hx)
          refine List.Forall₂.cons ?_ (ih hOrest (some tb.type) W hsub2)
          show c8Rel m W (Line.token "O" s e tok) _
          rw [c8Rel, hfo]
          refine ⟨tb, hmo, ?_, ?_⟩
          · by_cases hps : prev = some tb.type
            · rw [if_pos hps]
              right
              rfl
            · rw [if_neg hps]
              left
              rfl
          · intro hos
            apply hsub
            apply List.mem_append_left
            rw [if_neg hos]
            exact List.mem_singleton.mpr rfl

/-- Claim C8: for each token given to `relabel` (placeholder-tagged input,
default configuration), the assigned type is that of the span claiming the
first claimed offset within the token; with no claimed offset the token's
tag is `O`; when the first claimed offset is strictly inside the token a
boundary-mismatch warning is among the returned warnings; and processing
covers every input line (the output has one record per input record, so
warnings never abort). -/
theorem c8_label_projection (lines : List Line) (anns : List Textbound)
    (hO : allO lines = true) :
    List.Forall₂
      (c8Rel (buildOffsetLabel anns).1 (relabel none lines anns).2)
      lines (relabel none lines anns).1 ∧
    (relabel none lines anns).1.length = lines.length := by
  have hsub : (relabelAux (buildOffsetLabel anns).1 none lines).2 ⊆
      (relabel none lines anns).2 := by
    rw [relabel]
    exact List.subset_append_right _ _
  have h := relabelAux_c8 (buildOffsetLabel anns).1 lines hO none
    (relabel none lines anns).2 hsub
  exact ⟨h, h.length_eq.symm⟩

/-- Python `l.rstrip('\n')`: remove every trailing newline character. -/
def rstripNewline (s : String) : String :=
  String.mk ((s.data.reverse.dropWhile fun c => c = '\n').reverse)

/-- Python `s.split(sep)` on a `String`, one-character separator. -/
def pySplitStr (sep : Char) (s : String) : List String :=
  (pySplit sep s.data).map String.mk

/-- Python `s.split()` (no argument): maximal non-whitespace runs, empty
fields discarded. -/
def pySplitWs (s : String) : List String :=
  ((pretokenize s.data).filter fun t =>
    match t with
    | c :: _ => !isPySpace c
    | [] => false).map String.mk

/-- Helper for the `\d+\t` part of the id-line patterns: digits continue
until a TAB. -/
def tabAfterDigits : List Char → Bool
  | [] => false
  | '\t' :: _ => true
  | c :: cs => c.isDigit && tabAfterDigits cs

/-- Match of `re.compile(r'^X\d+\t')` for a one-character kind marker `c0`
(`TEXTBOUND_LINE_RE`/`ATTRIBUTE_LINE_RE`, `anntoconll.py` lines 276-277;
`\d` is modelled as ASCII digits, the only ids the tool's formats use). -/
def matchesIdLine (c0 : Char) (s : String) : Bool :=
  match s.data with
  | c :: cs => c = c0 && (match cs with
      | [] => false
      | d :: ds => d.isDigit && tabAfterDigits ds)
  | [] => false

def matchesTextbound (s : String) : Bool := matchesIdLine 'T' s

def matchesAttribute (s : String) : Bool := matchesIdLine 'A' s

/-- Value part of a Python `int()` literal: digits with single underscores
between digit groups. -/
def pyDigitsRest : List Char → Nat → Option Nat
  | [], acc => some acc
  | '_' :: c :: cs, acc =>
    if c.isDigit then pyDigitsRest cs (acc * 10 + (c.toNat - '0'.toNat)) else none
  | ['_'], _ => none
  | c :: cs, acc =>
    if c.isDigit then pyDigitsRest cs (acc * 10 + (c.toNat - '0'.toNat)) else none

def pyIntDigits : List Char → Option Nat
  | [] => none
  | c :: cs => if c.isDigit then pyDigitsRest cs (c.toNat - '0'.toNat) else none

/-- Python `int(s)` restricted to what `.split()` output can carry (no
surrounding whitespace): an optional sign followed by ASCII digits with
optional single underscores, `none` when `int()` would raise `ValueError`. -/
def pyInt? (s : String) : Option Int :=
  match s.data with
  | '+' :: rest => (pyIntDigits rest).map fun n => (n : Int)
  | '-' :: rest => (pyIntDigits rest).map fun n => -(n : Int)
  | l => (pyIntDigits l).map fun n => (n : Int)

/-- The value stored in the parser's `mapping` dict:
`(start, end, [type, ...attributes], text)`. -/
abbrev TbVal := Int × Int × List String × String

/-- Python dict assignment `mapping[k] = v`: overwrite in place, keeping
the key's original insertion position, else append. -/
def dictInsert (k : String) (v : TbVal) : List (String × TbVal) → List (String × TbVal)
  | [] => [(k, v)]
  | (k2, v2) :: rest =>
    if k2 = k then (k2, v) :: rest else (k2, v2) :: dictInsert k v rest

def dictHasKey (k : String) (m : List (String × TbVal)) : Bool :=
  m.any fun p => p.1 = k

/-- Python `mapping[k][2].append(att)` on a present key. -/
def dictAppendAttr (k att : String) : List (String × TbVal) → List (String × TbVal)
  | [] => []
  | (k2, (s, e, tys, tx)) :: rest =>
    if k2 = k then (k2, (s, e, tys ++ [att], tx)) :: rest
    else (k2, (s, e, tys, tx)) :: dictAppendAttr k att rest

/-- Lexicographic comparison of code-point character lists (Python string
comparison). -/
def charListLe : List Char → List Char → Bool
  | [], _ => true
  | _ :: _, [] => false
  | a :: as, b :: bs => if a < b then true else if b < a then false else charListLe as bs

/-- Python tuple comparison on `(entityId, attribute)` pairs as used by
`sorted(attributes)`. -/
def pyPairLe (x y : String × String) : Bool :=
  if x.1 = y.1 then charListLe x.2.data y.2.data else charListLe x.1.data y.1.data

/-- Embedding of the line loop of `parse_textbounds` (`anntoconll.py` lines
289-303), carrying the `mapping` dict and the `attributes` list.  A
textbound line must split into exactly three TAB fields whose middle field
has exactly three whitespace-separated parts with integer offsets; an
attribute line must split into exactly two TAB fields whose second has
exactly two space-separated parts; each failed destructuring or `int()`
raises `ValueError`.  Other lines are skipped. -/
def parseLineStep (mapping : List (String × TbVal)) (attrs : List (String × String))
    (l0 : String) :
    Except PyError (List (String × TbVal) × List (String × String)) :=
  if matchesTextbound (rstripNewline l0) then
    match pySplitStr '\t' (rstripNewline l0) with
    | [id_, type_offsets, text] =>
      match pySplitWs type_offsets with
      | [type_, sstr, estr] =>
        match pyInt? sstr, pyInt? estr with
        | some si, some ei =>
          .ok (dictInsert id_ (si, ei, [type_], text) mapping, attrs)
        | _, _ => .error .valueError
      | _ => .error .valueError
    | _ => .error .valueError
  else if matchesAttribute (rstripNewline l0) then
    match pySplitStr '\t' (rstripNewline l0) with
    | [_, att_tid] =>
      match pySplitStr ' ' att_tid with
      | [att, tid] => .ok (mapping, attrs ++ [(tid, att)])
      | _ => .error .valueError
    | _ => .error .valueError
  else .ok (mapping, attrs)

def parseLinesAux (mapping : List (String × TbVal)) (attrs : List (String × String)) :
    List String → Except PyError (List (String × TbVal) × List (String × String))
  | [] => .ok (mapping, attrs)
  | l0 :: rest =>
    match parseLineStep mapping attrs l0 with
    | .error e => .error e
    | .ok (m2, a2) => parseLinesAux m2 a2 rest

/-- Embedding of the attribute-folding loop (`anntoconll.py` lines
305-308): attributes in sorted order are appended to their entity's type
list; a `tid` absent from the mapping raises `KeyError`. -/
def applyAttrs (mapping : List (String × TbVal)) :
    List (String × String) → Except PyError (List (String × TbVal))
  | [] => .ok mapping
  | (tid, att) :: rest =>
    if dictHasKey tid mapping then applyAttrs (dictAppendAttr tid att mapping) rest
    else .error .keyError

/-- Embedding of `parse_textbounds` (`anntoconll.py` lines 282-311):
parse the lines, optionally fold the sorted attributes into the mapping,
then build the `Textbound` list from the mapping values in insertion
order, dash-joining each type list. -/
def parse_textbounds (attributes_flag : Bool) (lines : List String) :
    Except PyError (List Textbound) :=
  match parseLinesAux [] [] lines with
  | .error e => .error e
  | .ok (mapping, attrs) =>
    match (if attributes_flag then applyAttrs mapping (List.mergeSort attrs pyPairLe)
           else .ok mapping) with
    | .error e => .error e
    | .ok mapping2 =>
      .ok (mapping2.map fun p =>
        ⟨p.2.1, p.2.2.1, String.intercalate "-" p.2.2.2.1, p.2.2.2.2⟩)

/-- The failure condition named by claim C4 on a (rstripped) textbound
line: not exactly three TAB-separated fields, or offset fields that are
not integer literals. -/
def badTextboundFields (l : String) : Bool :=
  match pySplitStr '\t' l with
  | [_, type_offsets, _] =>
    match pySplitWs type_offsets with
    | [_, sstr, estr] => (pyInt? sstr).isNone || (pyInt? estr).isNone
    | _ => false
  | _ => true

theorem parseLineStep_error_kind {mapping attrs l0 e}
    (h : parseLineStep mapping attrs l0 = .error e) : e = PyError.valueError := by
  rw [parseLineStep] at h
  split at h
  · split at h
    · split at h
      · split at h
        · exact Except.noConfusion h
        · injection h with h1
          exact h1.symm
      · injection h with h1
        exact h1.symm
    · injection h with h1
      exact h1.symm
  · split at h
    · split at h
      · split at h
        · exact Except.noConfusion h
        · injection h with h1
          exact h1.symm
      · injection h with h1
        exact h1.symm
    · exact Except.noConfusion h

theorem parseLineStep_ok_good {mapping attrs l0 r}
    (h : parseLineStep mapping attrs l0 = .ok r)
    (hmt : matchesTextbound (rstripNewline l0) = true) :
    badTextboundFields (rstripNewline l0) = false := by
  rw [parseLineStep, if_pos hmt] at h
  rw [badTextboundFields]
  split at h
  · split at h
    · split at h
      · simp_all
      · exact Except.noConfusion h
    · exact Except.noConfusion h
  · exact Except.noConfusion h

theorem parseLinesAux_ok_good {lines : List String} {mapping attrs r}
    (h : parseLinesAux mapping attrs lines = .ok r) :
    ∀ l ∈ lines, matchesTextbound (rstripNewline l) = true →
      badTextboundFields (rstripNewline l) = false := by
  induction lines generalizing mapping attrs with
  | nil =>
    intro l hl
    cases hl
  | cons l0 rest ih =>
    intro l hl hmt
    rw [parseLinesAux] at h
    rcases List.mem_cons.mp hl with rfl | hmem
    · cases hstep : parseLineStep mapping attrs l with
      | error e =>
        rw [hstep] at h
        exact Except.noConfusion h
      | ok p => exact parseLineStep_ok_good hstep hmt
    · cases hstep : parseLineStep mapping attrs l0 with
      | error e =>
        rw [hstep] at h
        exact Except.noConfusion h
      | ok p =>
        rw [hstep] at h
        exact ih h l hmem hmt

theorem parseLinesAux_error_kind {lines : List String} {mapping attrs e}
    (h : parseLinesAux mapping attrs lines = .error e) : e = PyError.valueError := by
  induction lines generalizing mapping attrs with
  | nil =>
    rw [parseLinesAux] at h
    exact Except.noConfusion h
  | cons l0 rest ih =>
    rw [parseLinesAux] at h
    cases hstep : parseLineStep mapping attrs l0 with
    | error e2 =>
      rw [hstep] at h
      injection h with h1
      rw [← h1]
      exact parseLineStep_error_kind hstep
    | ok p =>
      rw [hstep] at h
      exact ih h

/-- Claim C4 as stated is false: a textbound line with a non-integer
offset makes `parse_textbounds` fail, but with Python's builtin
`ValueError` (from tuple unpacking and `int()`), not with the
`FormatError` class the claim names. -/
theorem c4_counterexample :
    parse_textbounds false ["T1\tPER 0 x\tfoo"] = .error PyError.valueError ∧
    PyError.valueError ≠ PyError.formatError := by
  exact ⟨rfl, by decide⟩

/-- Claim C4, amended: an input stream containing a textbound-matching
line that does not split into exactly three tab-separated fields, or whose
offset fields are not integer literals, makes `parse_textbounds` fail with
a `ValueError` (not a `FormatError`). -/
theorem c4_parse_textbounds_error (flag : Bool) (lines : List String)
    (h : ∃ l ∈ lines, matchesTextbound (rstripNewline l) = true ∧
        badTextboundFields (rstripNewline l) = true) :
    parse_textbounds flag lines = .error PyError.valueError := by
  obtain ⟨l, hmem, hmt, hbad⟩ := h
  cases hp : parseLinesAux [] [] lines with
  | ok r =>
    have hgood := parseLinesAux_ok_good hp l hmem hmt
    rw [hbad] at hgood
    exact Bool.noConfusion hgood
  | error e =>
    have he := parseLinesAux_error_kind hp
    subst he
    rw [parse_textbounds, hp]

theorem c4_parse_textbounds_error_witness :
    parse_textbounds true ["T7\tPER zero five\tJohn"] = .error PyError.valueError :=
  c4_parse_textbounds_error true ["T7\tPER zero five\tJohn"]
    ⟨"T7\tPER zero five\tJohn", by decide, by decide, by decide⟩

theorem dictHasKey_dictAppendAttr (k k2 att : String) (m : List (String × TbVal)) :
    dictHasKey k (dictAppendAttr k2 att m) = dictHasKey k m := by
  induction m with
  | nil => rfl
  | cons p rest ih =>
    obtain ⟨kk, s, e, tys, tx⟩ := p
    rw [dictAppendAttr]
    by_cases hk : kk = k2
    · rw [if_pos hk]
      simp [dictHasKey]
    · rw [if_neg hk]
      simp only [dictHasKey, List.any_cons] at ih ⊢
      rw [ih]

theorem applyAttrs_keyError {attrsList : List (String × String)}
    {mapping : List (String × TbVal)}
    (h : ∃ pa ∈ attrsList, dictHasKey pa.1 mapping = false) :
    applyAttrs mapping attrsList = .error PyError.keyError := by
  induction attrsList generalizing mapping with
  | nil =>
    obtain ⟨pa, hpa, _⟩ := h
    cases hpa
  | cons hd tl ih =>
    obtain ⟨tid, att⟩ := hd
    obtain ⟨pa, hpa, hk⟩ := h
    rw [applyAttrs]
    by_cases hhd : dictHasKey tid mapping = true
    · rw [if_pos hhd]
      rcases List.mem_cons.mp hpa with rfl | hmem
      · rw [hk] at hhd
        exact Bool.noConfusion hhd
      · exact ih ⟨pa, hmem, by rw [dictHasKey_dictAppendAttr]; exact hk⟩
    · rw [if_neg hhd]

/-- Claim C5 as stated is false: with attribute-appending enabled, an
attribute record whose entity id is not in the textbound mapping makes
`parse_textbounds` raise a `KeyError` (`mapping[tid]` on a missing key)
instead of being silently dropped, while without that record the same
stream parses successfully. -/
theorem c5_counterexample :
    parse_textbounds true ["T1\tPER 0 1\tx", "A1\tNeg T9"] =
      .error PyError.keyError ∧
    parse_textbounds true ["T1\tPER 0 1\tx"] = .ok [⟨0, 1, "PER", "x"⟩] := by
  constructor
  · have hp : parseLinesAux [] [] ["T1\tPER 0 1\tx", "A1\tNeg T9"] =
        .ok ([("T1", (0, 1, ["PER"], "x"))], [("T9", "Neg")]) := rfl
    rw [parse_textbounds, hp]
    simp only [if_true, List.mergeSort_singleton]
    rfl
  · have hp : parseLinesAux [] [] ["T1\tPER 0 1\tx"] =
        .ok ([("T1", (0, 1, ["PER"], "x"))], []) := rfl
    rw [parse_textbounds, hp]
    simp only [if_true, List.mergeSort_nil]
    rfl

/-- Claim C5, amended: with attribute-appending enabled, an attribute
record whose entity id does not appear in the textbound mapping is not
dropped — `parse_textbounds` fails with a `KeyError`. -/
theorem c5_dangling_attribute (lines : List String)
    (mapping : List (String × TbVal)) (attrs : List (String × String))
    (hp : parseLinesAux [] [] lines = .ok (mapping, attrs))
    (h : ∃ pa ∈ attrs, dictHasKey pa.1 mapping = false) :
    parse_textbounds true lines = .error PyError.keyError := by
  rw [parse_textbounds, hp]
  have happ : applyAttrs mapping (List.mergeSort attrs pyPairLe) =
      .error PyError.keyError := by
    obtain ⟨pa, hpa, hk⟩ := h
    exact applyAttrs_keyError ⟨pa, List.mem_mergeSort.mpr hpa, hk⟩
  simp only [if_true, happ]

theorem c5_dangling_attribute_witness :
    parse_textbounds true ["A1\tNeg T9"] = .error PyError.keyError :=
  c5_dangling_attribute ["A1\tNeg T9"] [] [("T9", "Neg")] (by rfl) (by decide)

/-- Python `str.strip()` over ASCII whitespace. -/
def pyStrip (s : String) : String :=
  String.mk (((s.data.dropWhile isPySpace).reverse.dropWhile isPySpace).reverse)

/-- The fields of a standoff line `'T%d\t%s %d %d\t%s' % (idnum, ttype,
start, end, text)` as built by `tokstr` (`conllpos_to_standoff.py`
line 58). -/
structure AnnRecord where
  idnum : Nat
  ttype : String
  start : Nat
  stop : Nat
  text : String
  deriving DecidableEq, Repr

/-- Embedding of `tokstr` (`conllpos_to_standoff.py` lines 52-58): reject a
newline or non-stripped whitespace in the entity text, else emit the
record. -/
def tokstr (start stop : Nat) (ttype : String) (idnum : Nat) (text : String) :
    Except PyError AnnRecord :=
  if '\n' ∈ text.data then .error .valueError
  else if text ≠ pyStrip text then .error .valueError
  else .ok ⟨idnum, ttype, start, stop, text⟩

/-- Python `pos[:pos.index('[')]` (`conllpos_to_standoff.py` line 92):
the part of the POS column before its bracket, `ValueError` when there is
no bracket. -/
def posHead (pos : String) : Except PyError String :=
  match pos.data.findIdx? (fun c => c = '[') with
  | none => .error .valueError
  | some k => .ok (String.mk (pos.data.take k))

/-- Python `s.replace(' ', '|', 1)` on character data. -/
def replaceFirstSpace : List Char → List Char
  | [] => []
  | c :: cs => if c = ' ' then '|' :: cs else c :: replaceFirstSpace cs

/-- The `.txt` output line `' '.join(toksent).replace(' ', '|', 1)`
(`conllpos_to_standoff.py` line 98). -/
def joinTokLine (toksent : List String) : String :=
  String.mk (replaceFirstSpace (String.intercalate " " toksent).data)

/-- State of the reverse mapper's per-document loop: the closed segment
file pairs so far, the open pair's contents, and the running entity id and
character offset. -/
structure SegState where
  segments : List (List AnnRecord × List String)
  annLines : List AnnRecord
  txtLines : List String
  idnum : Nat
  offset : Nat
  deriving DecidableEq, Repr

/-- Embedding of the token loop body (`conllpos_to_standoff.py` lines
90-97): extract the POS head and entity text, emit the record and advance
offset and id.  A short token record raises `IndexError` on the column
access. -/
def processTok (st : SegState) (conlltok : List String) : Except PyError SegState :=
  match conlltok.get? 5, conlltok.get? 4 with
  | some pos, some text =>
    match posHead pos with
    | .error e => .error e
    | .ok pp =>
      match tokstr st.offset (st.offset + text.length) pp st.idnum text with
      | .error e => .error e
      | .ok r =>
        .ok { st with
          annLines := st.annLines ++ [r],
          offset := st.offset + text.length + 1,
          idnum := st.idnum + 1 }
  | _, _ => .error .indexError

def processToks (st : SegState) : List (List String) → Except PyError SegState
  | [] => .ok st
  | t :: ts =>
    match processTok st t with
    | .error e => .error e
    | .ok st2 => processToks st2 ts

/-- Embedding of one sentence of the segment loop (`conllpos_to_standoff.py`
lines 83-108): length check against `toksent[1:]`, offset advance by the
key field, token emission, the `.txt` line, then segment rotation when
`idnum >= 1000`. -/
def processSent (st : SegState) (conllsent : List (List String))
    (toksent : List String) : Except PyError SegState :=
  if conllsent.length ≠ toksent.tail.length then .error .valueError
  else
    match toksent with
    | [] => .error .indexError
    | key :: _ =>
      match processToks { st with offset := st.offset + key.length + 1 } conllsent with
      | .error e => .error e
      | .ok st2 =>
        let st3 := { st2 with txtLines := st2.txtLines ++ [joinTokLine toksent] }
        if st3.idnum ≥ 1000 then
          .ok { segments := st3.segments ++ [(st3.annLines, st3.txtLines)],
                annLines := [], txtLines := [], idnum := 1, offset := 0 }
        else .ok st3

def processSents (st : SegState) :
    List (List (List String) × List String) → Except PyError SegState
  | [] => .ok st
  | (cs, ts) :: rest =>
    match processSent st cs ts with
    | .error e => .error e
    | .ok st2 => processSents st2 rest

/-- Embedding of the per-document body of `main`
(`conllpos_to_standoff.py` lines 76-110): the sentence-count check, the
lockstep walk over the conll sentences and the tokenized lines starting
with `idnum = 1` and `offset = 0`, and the close of the final (possibly
partial) file pair.  Each element of the result is the contents of one
`(.ann, .txt)` file pair. -/
def conllposMain (conlldata : List (List (List String)))
    (tokenized : List (List String)) :
    Except PyError (List (List AnnRecord × List String)) :=
  if conlldata.length ≠ tokenized.length then .error .valueError
  else
    match processSents ⟨[], [], [], 1, 0⟩ (conlldata.zip tokenized) with
    | .error e => .error e
    | .ok st => .ok (st.segments ++ [(st.annLines, st.txtLines)])

/-- One conll token row of the 1001-token example document: text `a`
(column 4) and POS `N[x]` (column 5). -/
def c6row : List String := ["1", "-", "-", "-", "a", "N[x]"]

/-- A one-token sentence of the example document. -/
def c6sent : List (List String) := [c6row]

/-- The matching tokenized line `k|a` after `replace('|', ' ', 1).split(' ')`. -/
def c6line : List String := ["k", "a"]

/-- The example document: 1001 tokens, one per sentence. -/
def c6conll : List (List (List String)) := List.replicate 1001 c6sent

def c6tok : List (List String) := List.replicate 1001 c6line

theorem c6_processTok (st : SegState) :
    processTok st c6row =
      .ok { st with
        annLines := st.annLines ++ [⟨st.idnum, "N", st.offset, st.offset + 1, "a"⟩],
        offset := st.offset + 2,
        idnum := st.idnum + 1 } := rfl

theorem c6_step (st : SegState) :
    processSent st c6sent c6line =
      if st.idnum + 1 ≥ 1000 then
        .ok ⟨st.segments ++
              [(st.annLines ++ [⟨st.idnum, "N", st.offset + 2, st.offset + 3, "a"⟩],
                st.txtLines ++ ["k|a"])], [], [], 1, 0⟩
      else
        .ok ⟨st.segments,
             st.annLines ++ [⟨st.idnum, "N", st.offset + 2, st.offset + 3, "a"⟩],
             st.txtLines ++ ["k|a"], st.idnum + 1, st.offset + 4⟩ := rfl

/-- The records emitted for `n` consecutive one-token sentences starting
at id `idn` and offset `off`. -/
def c6records (idn off n : Nat) : List AnnRecord :=
  (List.range n).map fun k => ⟨idn + k, "N", off + 4 * k + 2, off + 4 * k + 3, "a"⟩

theorem c6records_succ (idn off n : Nat) :
    c6records idn off (n + 1) =
      (⟨idn, "N", off + 2, off + 3, "a"⟩ : AnnRecord) ::
        c6records (idn + 1) (off + 4) n := by
  rw [c6records, List.range_succ_eq_map, List.map_cons, List.map_map, c6records]
  refine congrArg₂ _ (by simp) (List.map_congr_left ?_)
  intro k _
  simp only [Function.comp_apply, Nat.succ_eq_add_one, AnnRecord.mk.injEq]
  exact ⟨by omega, trivial, by omega, by omega, trivial⟩

theorem c6records_map_idnum (idn off n : Nat) :
    (c6records idn off n).map AnnRecord.idnum = List.range' idn n := by
  rw [c6records, List.map_map, List.range'_eq_map_range]
  rfl

theorem processSents_append (xs ys : List (List (List String) × List String))
    (st : SegState) :
    processSents st (xs ++ ys) =
      match processSents st xs with
      | .error e => .error e
      | .ok st2 => processSents st2 ys := by
  induction xs generalizing st with
  | nil => rfl
  | cons p rest ih =>
    obtain ⟨cs, ts⟩ := p
    rw [List.cons_append, processSents, processSents]
    cases processSent st cs ts with
    | error e => rfl
    | ok st2 => exact ih st2

/-- Closed form for a run of one-token sentences that triggers no segment
rotation. -/
theorem c6_run (n : Nat) :
    ∀ (idn off : Nat) (segs : List (List AnnRecord × List String))
      (ann : List AnnRecord) (txt : List String), idn + n < 1000 →
      processSents ⟨segs, ann, txt, idn, off⟩
          (List.replicate n (c6sent, c6line)) =
        .ok ⟨segs, ann ++ c6records idn off n, txt ++ List.replicate n "k|a",
             idn + n, off + 4 * n⟩ := by
  induction n with
  | zero =>
    intro idn off segs ann txt _
    simp [processSents, c6records]
  | succ n ih =>
    intro idn off segs ann txt h
    rw [List.replicate_succ, processSents, c6_step]
    rw [if_neg (by omega : ¬ idn + 1 ≥ 1000)]
    dsimp only
    have hih := ih (idn + 1) (off + 4) segs
      (ann ++ [{ idnum := idn, ttype := "N", start := off + 2, stop := off + 3,
                 text := "a" }]) (txt ++ ["k|a"]) (by omega)
    rw [hih]
    refine congrArg Except.ok ?_
    rw [c6records_succ]
    simp only [SegState.mk.injEq]
    refine ⟨trivial, ?_, ?_, by omega, by omega⟩
    · rw [List.append_assoc]
      rfl
    · rw [List.append_assoc, List.replicate_succ]
      rfl

theorem c6_head_run :
    processSents ⟨[], [], [], 1, 0⟩ (List.replicate 998 (c6sent, c6line)) =
      .ok ⟨[], c6records 1 0 998, List.replicate 998 "k|a", 999, 3992⟩ := by
  have h := c6_run 998 1 0 [] [] [] (by omega)
  simpa using h

theorem c6_tail_run (segs : List (List AnnRecord × List String)) :
    processSents ⟨segs, [], [], 1, 0⟩ (List.replicate 2 (c6sent, c6line)) =
      .ok ⟨segs, c6records 1 0 2, List.replicate 2 "k|a", 3, 8⟩ := by
  have h := c6_run 2 1 0 segs [] [] (by omega)
  simpa using h

/-- Full evaluation of the reverse mapper on the 1001-token document: two
file pairs; ids 1..998 plus the rotating 999th record in the first, ids 1
and 2 in the second, whose offsets restart from 0. -/
theorem c6_main_eval :
    conllposMain c6conll c6tok =
      .ok [(c6records 1 0 998 ++
              [{ idnum := 999, ttype := "N", start := 3994, stop := 3995,
                 text := "a" }],
            List.replicate 998 "k|a" ++ ["k|a"]),
           (c6records 1 0 2, List.replicate 2 "k|a")] := by
  have hsplit : List.replicate 1001 ((c6sent, c6line) :
      List (List String) × List String) =
      List.replicate 998 (c6sent, c6line) ++
        ((c6sent, c6line) :: List.replicate 2 (c6sent, c6line)) := by
    rw [show ((c6sent, c6line) :: List.replicate 2 (c6sent, c6line)) =
        List.replicate 3 (c6sent, c6line) from rfl, ← List.replicate_add]
  have hzip : c6conll.zip c6tok = List.replicate 1001 (c6sent, c6line) := by
    rw [c6conll, c6tok, List.zip_replicate']
  rw [conllposMain, if_neg (by simp [c6conll, c6tok])]
  rw [hzip, hsplit, processSents_append, c6_head_run]
  dsimp only
  rw [processSents, c6_step]
  rw [if_pos (by omega : (999 : Nat) + 1 ≥ 1000)]
  dsimp only
  rw [c6_tail_run]
  dsimp only
  norm_num

/-- Claim C6 as stated is false: on a 1001-token document (one token per
sentence) exactly two segment file pairs are produced, but the first pair
contains entity ids 1 through 999 — not 1 through 1000 — because the
rotation fires at the sentence end where the next id `idnum` reaches
1000. -/
theorem c6_counterexample :
    ((conllposMain c6conll c6tok).map fun segs =>
      (segs.length, (segs.headD ([], [])).1.map AnnRecord.idnum)) =
      .ok (2, List.range' 1 999) ∧
    List.range' 1 999 ≠ List.range' 1 1000 := by
  constructor
  · rw [c6_main_eval]
    rfl
  · intro h
    have hlen := congrArg List.length h
    simp [List.length_range'] at hlen

/-- Claim C6, amended: on a 1001-token document with one token per
sentence, exactly two segment file pairs are produced; the first contains
entity ids 1 through 999 (rotation fires once 1000 ids would be exceeded,
checked at sentence ends via `idnum >= 1000`), and the second restarts at
id 1 with the running character offset reset to 0 (its first record starts
at offset 2, contributed by the new segment's sentence key alone). -/
theorem c6_segmentation :
    ((conllposMain c6conll c6tok).map fun segs =>
      (segs.length,
       (segs.headD ([], [])).1.map AnnRecord.idnum,
       (segs.getD 1 ([], [])).1.map AnnRecord.idnum,
       ((segs.getD 1 ([], [])).1.map AnnRecord.start).take 1)) =
      .ok (2, List.range' 1 999, [1, 2], [2]) := by
  rw [c6_main_eval]
  rfl

theorem c8_label_projection_witness :
    List.Forall₂
      (c8Rel (buildOffsetLabel [⟨1, 3, "X", "oh"⟩]).1
        (relabel none [Line.token "O" 0 4 "John"] [⟨1, 3, "X", "oh"⟩]).2)
      [Line.token "O" 0 4 "John"]
      (relabel none [Line.token "O" 0 4 "John"] [⟨1, 3, "X", "oh"⟩]).1 ∧
    (relabel none [Line.token "O" 0 4 "John"] [⟨1, 3, "X", "oh"⟩]).1.length =
      ([Line.token "O" 0 4 "John"] : List Line).length :=
  c8_label_projection [Line.token "O" 0 4 "John"] [⟨1, 3, "X", "oh"⟩] (by decide)
